import Mathlib

/-!
# Verification of the scheduling client

Shallow embedding of `src/api/src/api/clients/scheduling.py` (class
`SchedulingClient`) and of the bootstrap assignment loop in
`src/api/src/api/main.py` (`init_default_data`).

The PostgreSQL store is modelled as an explicit state `DBState`: the three
tables `employees`, `schedules` and `rules` become Lean lists / an option.
The connection runs with `autocommit=True`, so every SQL statement commits
individually; a failure between two statements leaves the effect of the
first one in place.  Operations whose Python code catches exceptions and
returns a boolean are given an injected-failure flag (`wfail`) standing for
"the underlying write statement raised"; operations that re-raise return
`Except DBErr`.
-/

namespace Scheduling

/-- A JSON-object metadata blob, modelled as a string-keyed association list. -/
abbrev Metadata := List (String × String)

/-- A row of the `employees` table. -/
structure Employee where
  employee_number : String
  name : String
  first_line_support_count : Nat
  known_absences : List String
  metadata : Metadata
deriving Repr, DecidableEq

/-- A row of the `schedules` table. -/
structure ScheduleRow where
  date : String
  first_line_support : String
deriving Repr, DecidableEq

/-- The singleton row of the `rules` table (`id = 'system_rules'`). -/
structure RulesRow where
  max_days_per_week : Int
  preferred_balance : Rat
deriving Repr, DecidableEq

/-- The database state: the three tables of the `scheduling` schema. -/
structure DBState where
  employees : List Employee
  schedules : List ScheduleRow
  rules : Option RulesRow
deriving Repr, DecidableEq

/-- Errors surfaced by the store. -/
inductive DBErr where
  | connFailed
  | fkViolation
deriving Repr, DecidableEq

/-- `get_employee`: `SELECT ... FROM employees WHERE employee_number = %s`,
returning `None` when absent. -/
def get_employee (st : DBState) (employee_number : String) : Option Employee :=
  st.employees.find? (fun e => e.employee_number == employee_number)

/-- The `INSERT ... ON CONFLICT (employee_number) DO UPDATE` of
`create_employee`: on conflict only `name`, `known_absences` and `metadata`
are overwritten (`first_line_support_count` keeps its stored value); without
conflict a fresh row with count `0` is inserted. -/
def upsertEmployee (es : List Employee) (employee_number name : String)
    (known_absences : List String) (metadata : Metadata) : List Employee :=
  match es with
  | [] => [⟨employee_number, name, 0, known_absences, metadata⟩]
  | e :: rest =>
    if e.employee_number == employee_number then
      { e with name := name, known_absences := known_absences, metadata := metadata } :: rest
    else
      e :: upsertEmployee rest employee_number name known_absences metadata

/-- `create_employee`: upsert keyed by `employee_number`, returning the number. -/
def create_employee (st : DBState) (name employee_number : String)
    (known_absences : List String) (metadata : Metadata) : DBState × String :=
  ({ st with employees := upsertEmployee st.employees employee_number name known_absences metadata },
   employee_number)

/-- The partial-update dictionary accepted by `update_employee`; the write-back
statement uses exactly these four columns. -/
structure EmployeeUpdates where
  name : Option String
  first_line_support_count : Option Nat
  known_absences : Option (List String)
  metadata : Option Metadata
deriving Repr, DecidableEq

/-- The in-Python dictionary merge `for key, value in updates.items(): employee[key] = value`. -/
def mergeEmployee (e : Employee) (u : EmployeeUpdates) : Employee :=
  { e with
    name := u.name.getD e.name
    first_line_support_count := u.first_line_support_count.getD e.first_line_support_count
    known_absences := u.known_absences.getD e.known_absences
    metadata := u.metadata.getD e.metadata }

/-- The `UPDATE employees SET name, first_line_support_count, known_absences,
metadata WHERE employee_number = %s` statement: every matching row gets the
merged record's four columns; `employee_number` is untouched. -/
def updatedEmployees (st : DBState) (employee_number : String) (m : Employee) : DBState :=
  { st with employees := st.employees.map (fun x =>
      if x.employee_number == employee_number then
        { x with
          name := m.name
          first_line_support_count := m.first_line_support_count
          known_absences := m.known_absences
          metadata := m.metadata }
      else x) }

/-- `update_employee`: read-modify-write; returns `False` when the employee is
absent; catches any exception from the `UPDATE` statement (injected via
`wfail`) and returns `False`. -/
def update_employee_f (wfail : Bool) (st : DBState) (employee_number : String)
    (u : EmployeeUpdates) : Except DBErr (DBState × Bool) :=
  match get_employee st employee_number with
  | none => Except.ok (st, false)
  | some e =>
    if wfail then Except.ok (st, false)
    else Except.ok (updatedEmployees st employee_number (mergeEmployee e u), true)

/-- `delete_employee`: returns `False` when absent; otherwise deletes every
schedule row referencing the employee (its own auto-committed statement) and
then the employee row, returning `rows_deleted > 0`.  `wfail` injects a
failure of the employee-row `DELETE`; the exception is caught and `False`
returned, with the schedule deletion already committed. -/
def delete_employee_f (wfail : Bool) (st : DBState) (employee_number : String) :
    Except DBErr (DBState × Bool) :=
  match get_employee st employee_number with
  | none => Except.ok (st, false)
  | some _ =>
    let affected := (st.schedules.filter (fun s => s.first_line_support == employee_number)).map
      (fun s => s.date)
    let st1 :=
      if affected.isEmpty then st
      else { st with schedules := st.schedules.filter (fun s => s.first_line_support != employee_number) }
    if wfail then Except.ok (st1, false)
    else
      let rows_deleted := (st1.employees.filter (fun e => e.employee_number == employee_number)).length
      let st2 := { st1 with employees := st1.employees.filter (fun e => e.employee_number != employee_number) }
      Except.ok (st2, decide (0 < rows_deleted))

/-- `get_schedule`: `SELECT ... FROM schedules WHERE date = %s`. -/
def get_schedule (st : DBState) (date_str : String) : Option ScheduleRow :=
  st.schedules.find? (fun s => s.date == date_str)

/-- Number of schedule rows whose `first_line_support` is the given number. -/
def scheduleCount (ss : List ScheduleRow) (n : String) : Nat :=
  (ss.filter (fun s => s.first_line_support == n)).length

/-- The `SELECT first_line_support, COUNT(*) ... GROUP BY first_line_support`
of `_update_employee_counts`. -/
def groupCounts (ss : List ScheduleRow) : List (String × Nat) :=
  ((ss.map (fun s => s.first_line_support)).dedup).map (fun n => (n, scheduleCount ss n))

/-- One `UPDATE employees SET first_line_support_count = %s WHERE employee_number = %s`. -/
def applyCount (es : List Employee) (p : String × Nat) : List Employee :=
  es.map (fun e =>
    if e.employee_number == p.1 then { e with first_line_support_count := p.2 } else e)

/-- `_update_employee_counts`: reset every count to zero, then write the
grouped per-employee schedule counts. -/
def update_employee_counts (st : DBState) : DBState :=
  { st with employees := ((groupCounts st.schedules).foldl applyCount
      (st.employees.map (fun e => { e with first_line_support_count := 0 }))) }

/-- The `INSERT ... ON CONFLICT (date) DO UPDATE` of `create_schedule`:
last write wins for a given date. -/
def upsertSchedule (ss : List ScheduleRow) (date_str employee_number : String) : List ScheduleRow :=
  match ss with
  | [] => [⟨date_str, employee_number⟩]
  | s :: rest =>
    if s.date == date_str then ⟨date_str, employee_number⟩ :: rest
    else s :: upsertSchedule rest date_str employee_number

/-- `create_schedule`: the `schedules` table carries
`FOREIGN KEY (first_line_support) REFERENCES employees(employee_number)`, so
the insert raises when the employee number does not resolve; the exception is
re-raised to the caller.  On success the row is upserted and
`_update_employee_counts` runs before returning. -/
def create_schedule_m (st : DBState) (date_str employee_number : String) :
    Except DBErr (DBState × String) :=
  if (st.employees.find? (fun e => e.employee_number == employee_number)).isSome then
    let st1 := { st with schedules := upsertSchedule st.schedules date_str employee_number }
    Except.ok (update_employee_counts st1, date_str)
  else
    Except.error DBErr.fkViolation

/-- The WHERE clause of `get_schedules`: `date >= start` when a start bound is
given and `date <= end` when an end bound is given (string comparison, the
canonical `YYYY-MM-DD` encoding makes it chronological). -/
def boundOk (start_date end_date : Option String) (r : ScheduleRow) : Bool :=
  (match start_date with
   | none => true
   | some a => decide (a ≤ r.date)) &&
  (match end_date with
   | none => true
   | some b => decide (r.date ≤ b))

/-- Ascending-by-date order on schedule rows (`ORDER BY date ASC`). -/
def dateLE (a b : ScheduleRow) : Prop := a.date ≤ b.date

instance : DecidableRel dateLE := fun a b => inferInstanceAs (Decidable (a.date ≤ b.date))

instance : IsTotal ScheduleRow dateLE := ⟨fun a b => le_total a.date b.date⟩

instance : IsTrans ScheduleRow dateLE := ⟨fun _ _ _ h1 h2 => le_trans h1 h2⟩

/-- `get_schedules`: rows passing the optional inclusive bounds, ordered
ascending by date. -/
def get_schedules (st : DBState) (start_date end_date : Option String) : List ScheduleRow :=
  List.insertionSort dateLE (st.schedules.filter (boundOk start_date end_date))

/-- `update_schedule`: `False` when the date has no schedule; the `UPDATE`
statement may fail (injected `wfail`, or the foreign-key check when the new
employee number does not resolve), in which case the exception is caught and
`False` returned; on success reconciliation runs and `True` is returned. -/
def update_schedule_f (wfail : Bool) (st : DBState) (date_str employee_number : String) :
    Except DBErr (DBState × Bool) :=
  match get_schedule st date_str with
  | none => Except.ok (st, false)
  | some _ =>
    if wfail then Except.ok (st, false)
    else if (st.employees.find? (fun e => e.employee_number == employee_number)).isSome then
      let st1 := { st with schedules := st.schedules.map (fun r =>
        if r.date == date_str then { r with first_line_support := employee_number } else r) }
      let rows_updated := (st.schedules.filter (fun r => r.date == date_str)).length
      if 0 < rows_updated then Except.ok (update_employee_counts st1, true)
      else Except.ok (st1, false)
    else Except.ok (st, false)

/-- `delete_schedule`: `False` when absent; otherwise the row is deleted
(`wfail` injects a caught failure of the `DELETE`), reconciliation runs and
`rows_deleted > 0` decides the result. -/
def delete_schedule_f (wfail : Bool) (st : DBState) (date_str : String) :
    Except DBErr (DBState × Bool) :=
  match get_schedule st date_str with
  | none => Except.ok (st, false)
  | some _ =>
    if wfail then Except.ok (st, false)
    else
      let rows_deleted := (st.schedules.filter (fun r => r.date == date_str)).length
      let st1 := { st with schedules := st.schedules.filter (fun r => r.date != date_str) }
      if 0 < rows_deleted then Except.ok (update_employee_counts st1, true)
      else Except.ok (st1, false)

/-- The default rules row seeded by `_init_default_rules`. -/
def defaultRules : RulesRow := ⟨3, 1 / 5⟩

/-- `get_rules`: returns the singleton row, seeding it with defaults first
when absent (the seeding `INSERT` commits). -/
def get_rules (st : DBState) : DBState × RulesRow :=
  match st.rules with
  | some r => (st, r)
  | none => ({ st with rules := some defaultRules }, defaultRules)

/-- The partial-update dictionary accepted by `update_rules`; `None` values
are skipped by the merge. -/
structure RuleUpdates where
  max_days_per_week : Option Int
  preferred_balance : Option Rat
deriving Repr, DecidableEq

/-- `update_rules`: read-modify-write merge; `wfail` injects a caught failure
of the `UPDATE` statement, returning `False`; on success the merged row is
written (updating the existing row, or inserting when none was updated). -/
def update_rules_f (wfail : Bool) (st : DBState) (u : RuleUpdates) :
    Except DBErr (DBState × Bool) :=
  let stR := get_rules st
  let merged : RulesRow :=
    { max_days_per_week := u.max_days_per_week.getD stR.2.max_days_per_week
      preferred_balance := u.preferred_balance.getD stR.2.preferred_balance }
  if wfail then Except.ok (stR.1, false)
  else
    match stR.1.rules with
    | some _ => Except.ok ({ stR.1 with rules := some merged }, true)
    | none => Except.ok ({ stR.1 with rules := some merged }, true)

/-- `connect`: a single `psycopg.connect` attempt; on failure the exception is
re-raised immediately.  `outcomes k` tells whether the `k`-th attempt of the
session would succeed — `connect` only ever consults attempt `0`. -/
def connect_m (outcomes : Nat → Bool) : Except DBErr Unit :=
  if outcomes 0 then Except.ok () else Except.error DBErr.connFailed

/-- The retry loop at the top of `init`: up to `maxRetries` connection
attempts; after a failed attempt that still has budget it sleeps the current
delay and multiplies it by `1.5`, capped at `maxDelay`; when the budget is
exhausted it re-raises.  Returns the error (if any) together with the list of
delays slept. -/
def initLoop (outcomes : Nat → Bool) (maxRetries attempts : Nat) (delay maxDelay : Rat) :
    Option DBErr × List Rat :=
  if attempts < maxRetries then
    if outcomes attempts then (none, [])
    else if attempts + 1 < maxRetries then
      let rest := initLoop outcomes maxRetries (attempts + 1) (min maxDelay (delay * (3 / 2))) maxDelay
      (rest.1, delay :: rest.2)
    else (some DBErr.connFailed, [])
  else (none, [])
termination_by maxRetries - attempts
decreasing_by simp_wf; omega

/-- The connection-retry phase of `init`, entered with no live connection. -/
def init_m (outcomes : Nat → Bool) (maxRetries : Nat) (initialDelay maxDelay : Rat) :
    Option DBErr × List Rat :=
  initLoop outcomes maxRetries 0 initialDelay maxDelay

/-- The delay the retry loop sleeps before retry `k`:
`initialDelay`, then repeatedly `min maxDelay (previous * 1.5)`. -/
def backoffDelay (initialDelay maxDelay : Rat) : Nat → Rat
  | 0 => initialDelay
  | k + 1 => min maxDelay (backoffDelay initialDelay maxDelay k * (3 / 2))

/-- An entry of `default_employees` in `init_default_data`. -/
structure EmpSpec where
  name : String
  employee_number : String
  known_absences : List String
deriving Repr, DecidableEq

/-- `available_employees`: the employees not listed absent on the date. -/
def availableOn (emps : List EmpSpec) (date_str : String) : List EmpSpec :=
  emps.filter (fun e => ! e.known_absences.contains date_str)

/-- The employee-number selection of the bootstrap loop body:
`available[i % len(available)]` when some employee is available, otherwise the
round-robin fallback `all[i % len(all)]`. -/
def pickNumber (emps : List EmpSpec) (date_str : String) (i : Nat) : Option String :=
  let avail := availableOn emps date_str
  if h : avail.length ≠ 0 then
    some (avail.get ⟨i % avail.length, Nat.mod_lt i (Nat.pos_of_ne_zero h)⟩).employee_number
  else if h2 : emps.length ≠ 0 then
    some (emps.get ⟨i % emps.length, Nat.mod_lt i (Nat.pos_of_ne_zero h2)⟩).employee_number
  else none

/-- The body of the front-fill loop of `init_default_data` for the date at
zero-based offset `i`: skip when a schedule already exists, otherwise create a
schedule for the picked employee (a failure of `create_schedule` is caught and
logged, leaving the store unchanged). -/
def fillStep (emps : List EmpSpec) (i : Nat) (db : DBState) (date_str : String) : DBState :=
  match get_schedule db date_str with
  | some _ => db
  | none =>
    match pickNumber emps date_str i with
    | none => db
    | some n =>
      match create_schedule_m db date_str n with
      | Except.ok (st2, _) => st2
      | Except.error _ => db

/-- The front-fill loop of `init_default_data` over the date window, with `i`
the zero-based offset of the current date. -/
def fillLoop (emps : List EmpSpec) (i : Nat) (db : DBState) : List String → DBState
  | [] => db
  | d :: rest => fillLoop emps (i + 1) (fillStep emps i db d) rest

/-- The duty-count invariant: every employee's stored
`first_line_support_count` equals the number of schedule rows referencing it. -/
def countInvariant (st : DBState) : Prop :=
  ∀ e ∈ st.employees, e.first_line_support_count = scheduleCount st.schedules e.employee_number

instance (st : DBState) : Decidable (countInvariant st) := by
  unfold countInvariant; infer_instance

/-! ## Reconciliation lemmas -/

theorem foldl_applyCount (f : String → Nat) :
    ∀ (ps : List (String × Nat)) (es : List Employee),
    (∀ p ∈ ps, p.2 = f p.1) →
    ps.foldl applyCount es = es.map (fun e =>
      if e.employee_number ∈ ps.map Prod.fst then
        { e with first_line_support_count := f e.employee_number } else e)
  | [], es, _ => by simp
  | p :: ps, es, hcoh => by
    have hIH := foldl_applyCount f ps (applyCount es p)
      (fun q hq => hcoh q (List.mem_cons_of_mem _ hq))
    rw [List.foldl_cons, hIH]
    unfold applyCount
    rw [List.map_map]
    apply List.map_congr_left
    intro e _
    by_cases hb : e.employee_number = p.1
    · have hp2 : p.2 = f p.1 := hcoh p (List.mem_cons_self _ _)
      by_cases hm : p.1 ∈ ps.map Prod.fst <;>
        simp [Function.comp, hb, hp2, hm]
    · by_cases hm : e.employee_number ∈ ps.map Prod.fst <;>
        simp [Function.comp, hb, hm]

theorem groupCounts_keys (ss : List ScheduleRow) :
    (groupCounts ss).map Prod.fst = (ss.map (fun s => s.first_line_support)).dedup := by
  unfold groupCounts
  rw [List.map_map]
  have hid : (Prod.fst ∘ fun n : String => (n, scheduleCount ss n)) = id := rfl
  rw [hid, List.map_id]

theorem scheduleCount_eq_zero (ss : List ScheduleRow) (n : String)
    (h : n ∉ ss.map (fun s => s.first_line_support)) : scheduleCount ss n = 0 := by
  unfold scheduleCount
  rw [List.length_eq_zero, List.filter_eq_nil_iff]
  intro s hs hbeq
  exact h (List.mem_map.mpr ⟨s, hs, (beq_iff_eq.mp hbeq).symm ▸ rfl⟩)

/-- After `_update_employee_counts`, every employee's stored count equals the
number of schedule rows referencing it. -/
theorem countInvariant_update_employee_counts (st : DBState) :
    countInvariant (update_employee_counts st) := by
  intro e he
  unfold update_employee_counts at he ⊢
  rw [foldl_applyCount (scheduleCount st.schedules) _ _
    (by
      intro p hp
      unfold groupCounts at hp
      obtain ⟨n, _, rfl⟩ := List.mem_map.mp hp
      rfl)] at he
  rw [List.map_map] at he
  obtain ⟨e0, _, rfl⟩ := List.mem_map.mp he
  rw [groupCounts_keys] at *
  by_cases hm : e0.employee_number ∈ (st.schedules.map (fun s => s.first_line_support)).dedup
  · simp [Function.comp, hm]
  · rw [List.mem_dedup] at hm
    simp [Function.comp, List.mem_dedup, hm, scheduleCount_eq_zero _ _ hm]

/-! ## Concrete states used to instantiate the theorems -/

def wEmp1 : Employee := ⟨"EMP001", "Lars Larsson", 0, ["2024-03-01"], []⟩

def wEmp2 : Employee := ⟨"EMP002", "Dagobert Dagobertsson", 0, [], []⟩

def wState : DBState := ⟨[wEmp1, wEmp2], [⟨"2024-03-02", "EMP001"⟩], some defaultRules⟩

/-! ## C1: counts reconciled after every successful schedule mutation -/

/-- C1: after every successful schedule mutation (`create_schedule` returning
normally, `update_schedule` or `delete_schedule` returning `True`), every
employee's stored `first_line_support_count` equals the number of schedule
rows whose `first_line_support` is that employee's number. -/
theorem schedule_mutations_reconcile_counts :
    (∀ st d n st2 r, create_schedule_m st d n = Except.ok (st2, r) → countInvariant st2) ∧
    (∀ st d n st2, update_schedule_f false st d n = Except.ok (st2, true) → countInvariant st2) ∧
    (∀ st d st2, delete_schedule_f false st d = Except.ok (st2, true) → countInvariant st2) := by
  refine ⟨?_, ?_, ?_⟩
  · intro st d n st2 r h
    unfold create_schedule_m at h
    by_cases hfk : (st.employees.find? (fun e => e.employee_number == n)).isSome
    · rw [if_pos hfk] at h
      cases h
      exact countInvariant_update_employee_counts _
    · rw [if_neg hfk] at h
      cases h
  · intro st d n st2 h
    unfold update_schedule_f at h
    cases hg : get_schedule st d with
    | none => rw [hg] at h; cases h
    | some s =>
      rw [hg] at h
      dsimp only at h
      by_cases hfk : (st.employees.find? (fun e => e.employee_number == n)).isSome
      · rw [if_pos hfk] at h
        by_cases hru : 0 < (st.schedules.filter (fun r => r.date == d)).length
        · rw [if_pos hru] at h
          cases h
          exact countInvariant_update_employee_counts _
        · rw [if_neg hru] at h
          cases h
      · rw [if_neg hfk] at h
        cases h
  · intro st d st2 h
    unfold delete_schedule_f at h
    cases hg : get_schedule st d with
    | none => rw [hg] at h; cases h
    | some s =>
      rw [hg] at h
      dsimp only at h
      by_cases hrd : 0 < (st.schedules.filter (fun r => r.date == d)).length
      · rw [if_pos hrd] at h
        cases h
        exact countInvariant_update_employee_counts _
      · rw [if_neg hrd] at h
        cases h

/-- Witness for C1: a concrete `create_schedule` call on `wState`. -/
theorem schedule_mutations_reconcile_counts_witness :
    countInvariant (update_employee_counts
      { wState with schedules := upsertSchedule wState.schedules "2024-03-01" "EMP002" }) :=
  schedule_mutations_reconcile_counts.1 wState "2024-03-01" "EMP002" _ "2024-03-01" rfl

/-! ## C2: delete_employee cascade semantics -/

theorem schedules_filter_ne_of_no_ref (st : DBState) (n : String)
    (hnil : st.schedules.filter (fun s => s.first_line_support == n) = []) :
    st.schedules.filter (fun s => s.first_line_support != n) = st.schedules := by
  rw [List.filter_eq_self]
  intro s hs
  have hne := List.filter_eq_nil_iff.mp hnil s hs
  simp only [bne_iff_ne, ne_eq]
  intro hEq
  exact hne (by simp [hEq])

/-- C2: `delete_employee` on an absent employee returns `False` and changes
nothing; on an existing employee it removes every schedule row referencing the
employee number, then the employee row, and returns `True`; every other
employee's row — its stored duty-count included — is left unchanged. -/
theorem delete_employee_cascade :
    ∀ st n,
    (get_employee st n = none → delete_employee_f false st n = Except.ok (st, false)) ∧
    (get_employee st n ≠ none →
      delete_employee_f false st n = Except.ok
        ({ st with
            employees := st.employees.filter (fun e => e.employee_number != n),
            schedules := st.schedules.filter (fun s => s.first_line_support != n) }, true) ∧
      ∀ e ∈ st.employees, e.employee_number ≠ n →
        e ∈ st.employees.filter (fun e => e.employee_number != n)) := by
  intro st n
  constructor
  · intro hnone
    unfold delete_employee_f
    rw [hnone]
  · intro hsome
    cases hge : get_employee st n with
    | none => exact absurd hge hsome
    | some e =>
      have hge' : st.employees.find? (fun x => x.employee_number == n) = some e := hge
      have hmem : e ∈ st.employees := List.mem_of_find?_eq_some hge'
      have hbeq : (e.employee_number == n) = true :=
        @List.find?_some _ (fun x => x.employee_number == n) e st.employees hge'
      have hpos : 0 < (st.employees.filter (fun x => x.employee_number == n)).length := by
        have hin : e ∈ st.employees.filter (fun x => x.employee_number == n) :=
          List.mem_filter.mpr ⟨hmem, hbeq⟩
        exact List.length_pos.mpr (List.ne_nil_of_mem hin)
      refine ⟨?_, ?_⟩
      · unfold delete_employee_f
        rw [hge]
        dsimp only
        by_cases hemp :
            (((st.schedules.filter (fun s => s.first_line_support == n)).map
              (fun s => s.date)).isEmpty) = true
        · rw [if_pos hemp]
          have hnil : st.schedules.filter (fun s => s.first_line_support == n) = [] :=
            List.map_eq_nil_iff.mp (List.isEmpty_iff.mp hemp)
          rw [decide_eq_true hpos, schedules_filter_ne_of_no_ref st n hnil]
          simp
        · rw [if_neg hemp]
          dsimp only
          rw [decide_eq_true hpos]
          simp
      · intro x hx hne
        exact List.mem_filter.mpr ⟨hx, by simp [bne_iff_ne, hne]⟩

/-- Witness for C2: deleting `EMP001` from `wState` removes its schedule row
and its employee row and returns `True`. -/
theorem delete_employee_cascade_witness :
    delete_employee_f false wState "EMP001" = Except.ok
      ({ wState with
          employees := wState.employees.filter (fun e => e.employee_number != "EMP001"),
          schedules := wState.schedules.filter (fun s => s.first_line_support != "EMP001") },
       true) :=
  ((delete_employee_cascade wState "EMP001").2 (by decide)).1

/-! ## C3: referential check on create_schedule -/

/-- C3: `create_schedule` fails, propagating the error to the caller, whenever
the employee number does not resolve to an existing employee: the foreign-key
constraint rejects the insert, so no dangling schedule row is ever written. -/
theorem create_schedule_fk_check :
    ∀ st d n, (∀ e ∈ st.employees, e.employee_number ≠ n) →
      create_schedule_m st d n = Except.error DBErr.fkViolation := by
  intro st d n h
  unfold create_schedule_m
  rw [if_neg]
  intro hs
  obtain ⟨e, hmem, hbeq⟩ := List.find?_isSome.mp hs
  exact h e hmem (by simpa using hbeq)

/-- Witness for C3: `EMP999` names no employee of `wState`, so the insert is
rejected. -/
theorem create_schedule_fk_check_witness :
    create_schedule_m wState "2024-03-05" "EMP999" = Except.error DBErr.fkViolation :=
  create_schedule_fk_check wState "2024-03-05" "EMP999" (by decide)

/-! ## C4: bootstrap round-robin assignment -/

/-- The employee the loop body selects from the non-absent set at offset `i`. -/
def chosenAvailable (emps : List EmpSpec) (date_str : String) (i : Nat)
    (h : 0 < (availableOn emps date_str).length) : EmpSpec :=
  (availableOn emps date_str).get ⟨i % (availableOn emps date_str).length, Nat.mod_lt i h⟩

theorem find?_upsertSchedule (ss : List ScheduleRow) (d n : String) :
    (upsertSchedule ss d n).find? (fun r => r.date == d) = some ⟨d, n⟩ := by
  induction ss with
  | nil => simp [upsertSchedule, List.find?]
  | cons s rest ih =>
    unfold upsertSchedule
    by_cases hb : (s.date == d) = true
    · rw [if_pos hb]
      simp [List.find?]
    · rw [if_neg hb]
      have hstep : List.find? (fun r => r.date == d) (s :: upsertSchedule rest d n) =
          List.find? (fun r => r.date == d) (upsertSchedule rest d n) := by
        simp [List.find?, hb]
      rw [hstep]
      exact ih

/-- C4: in the front-fill loop of `init_default_data`, at zero-based offset
`i`: a date that already has a schedule is left unchanged; otherwise, when
some employee is not absent on the date, the loop picks
`available[i % len(available)]` — an employee never absent on that date — and
persists that assignment.  The last conjunct anchors `fillStep` as the body of
`fillLoop` at offset `i`. -/
theorem bootstrap_round_robin :
    ∀ emps db d i,
    (get_schedule db d ≠ none → fillStep emps i db d = db) ∧
    (∀ h : 0 < (availableOn emps d).length,
      pickNumber emps d i = some (chosenAvailable emps d i h).employee_number ∧
      (chosenAvailable emps d i h).known_absences.contains d = false ∧
      (get_schedule db d = none →
        (∃ e ∈ db.employees, e.employee_number = (chosenAvailable emps d i h).employee_number) →
        get_schedule (fillStep emps i db d) d =
          some ⟨d, (chosenAvailable emps d i h).employee_number⟩)) ∧
    (∀ rest, fillLoop emps i db (d :: rest) = fillLoop emps (i + 1) (fillStep emps i db d) rest) := by
  intro emps db d i
  refine ⟨?_, ?_, ?_⟩
  · intro hne
    unfold fillStep
    cases hg : get_schedule db d with
    | none => exact absurd hg hne
    | some s => rfl
  · intro h
    have hpick : pickNumber emps d i = some (chosenAvailable emps d i h).employee_number := by
      unfold pickNumber chosenAvailable
      dsimp only
      rw [dif_pos (Nat.pos_iff_ne_zero.mp h)]
    refine ⟨hpick, ?_, ?_⟩
    · have hmem : chosenAvailable emps d i h ∈ availableOn emps d := List.get_mem _ _ _
      have := (List.mem_filter.mp hmem).2
      simpa using this
    · intro hg hex
      unfold fillStep
      rw [hg, hpick]
      dsimp only
      have hfk : (db.employees.find? (fun e =>
          e.employee_number == (chosenAvailable emps d i h).employee_number)).isSome = true := by
        rw [List.find?_isSome]
        obtain ⟨e, hmem, heq⟩ := hex
        exact ⟨e, hmem, by simp [heq]⟩
      unfold create_schedule_m
      rw [if_pos hfk]
      dsimp only
      exact find?_upsertSchedule db.schedules d (chosenAvailable emps d i h).employee_number
  · intro rest
    rfl

/-- The five default employees with the absence pattern of the fairness
scenario: `EMP001` absent on `2024-03-01`, everyone else eligible. -/
def scenarioEmps : List EmpSpec :=
  [⟨"Lars Larsson", "EMP001", ["2024-03-01"]⟩,
   ⟨"Dagobert Dagobertsson", "EMP002", []⟩,
   ⟨"Karl-Gustav Karlgustavsson", "EMP003", []⟩,
   ⟨"Kerstin Kerstinsdotter", "EMP004", []⟩,
   ⟨"Maj-Britt Majbrittdotter", "EMP005", []⟩]

/-- A store holding the five default employees and no schedules. -/
def scenarioState : DBState :=
  ⟨[⟨"EMP001", "Lars Larsson", 0, ["2024-03-01"], []⟩,
    ⟨"EMP002", "Dagobert Dagobertsson", 0, [], []⟩,
    ⟨"EMP003", "Karl-Gustav Karlgustavsson", 0, [], []⟩,
    ⟨"EMP004", "Kerstin Kerstinsdotter", 0, [], []⟩,
    ⟨"EMP005", "Maj-Britt Majbrittdotter", 0, [], []⟩],
   [], some defaultRules⟩

/-- Witness for C4: the fairness scenario — a 1-day window starting
`2024-03-01` with `EMP001` absent assigns `EMP002`, not `EMP001`. -/
theorem bootstrap_round_robin_witness :
    pickNumber scenarioEmps "2024-03-01" 0 = some "EMP002" ∧
    get_schedule (fillStep scenarioEmps 0 scenarioState "2024-03-01") "2024-03-01" =
      some ⟨"2024-03-01", "EMP002"⟩ := by
  have h := (bootstrap_round_robin scenarioEmps scenarioState "2024-03-01" 0).2.1
    (by decide)
  refine ⟨?_, ?_⟩
  · exact h.1.trans (by decide)
  · exact (h.2.2 (by decide) (by decide)).trans (by decide)

/-! ## C5: create_employee upsert semantics -/

theorem find?_upsertEmployee (es : List Employee) (n name : String) (abs : List String)
    (md : Metadata) :
    (upsertEmployee es n name abs md).find? (fun e => e.employee_number == n) =
      some (match es.find? (fun e => e.employee_number == n) with
            | some e => { e with name := name, known_absences := abs, metadata := md }
            | none => ⟨n, name, 0, abs, md⟩) := by
  induction es with
  | nil => simp [upsertEmployee, List.find?]
  | cons e rest ih =>
    unfold upsertEmployee
    by_cases hb : (e.employee_number == n) = true
    · rw [if_pos hb]
      simp [List.find?, hb]
    · rw [if_neg hb]
      have h1 : List.find? (fun x => x.employee_number == n)
          (e :: upsertEmployee rest n name abs md) =
          List.find? (fun x => x.employee_number == n) (upsertEmployee rest n name abs md) := by
        simp [List.find?, hb]
      have h2 : List.find? (fun x => x.employee_number == n) (e :: rest) =
          List.find? (fun x => x.employee_number == n) rest := by
        simp [List.find?, hb]
      rw [h1, h2]
      exact ih

theorem upsertEmployee_map_numbers (es : List Employee) (n name : String) (abs : List String)
    (md : Metadata) :
    (upsertEmployee es n name abs md).map (fun e => e.employee_number) =
      if (es.find? (fun e => e.employee_number == n)).isSome then
        es.map (fun e => e.employee_number)
      else es.map (fun e => e.employee_number) ++ [n] := by
  induction es with
  | nil => simp [upsertEmployee, List.find?]
  | cons e rest ih =>
    unfold upsertEmployee
    by_cases hb : (e.employee_number == n) = true
    · rw [if_pos hb]
      simp [List.find?, hb]
    · rw [if_neg hb]
      have h2 : List.find? (fun x => x.employee_number == n) (e :: rest) =
          List.find? (fun x => x.employee_number == n) rest := by
        simp [List.find?, hb]
      rw [List.map_cons, ih, h2]
      by_cases hf : (rest.find? (fun x => x.employee_number == n)).isSome = true
      · rw [if_pos hf, if_pos hf, List.map_cons]
      · rw [if_neg hf, if_neg hf, List.map_cons, List.cons_append]

theorem upsertEmployee_numbers_nodup (es : List Employee) (n name : String) (abs : List String)
    (md : Metadata) (hnd : (es.map (fun e => e.employee_number)).Nodup) :
    ((upsertEmployee es n name abs md).map (fun e => e.employee_number)).Nodup := by
  rw [upsertEmployee_map_numbers]
  by_cases hf : (es.find? (fun e => e.employee_number == n)).isSome = true
  · rw [if_pos hf]
    exact hnd
  · rw [if_neg hf]
    have hnone : es.find? (fun e => e.employee_number == n) = none :=
      Option.not_isSome_iff_eq_none.mp hf
    have hnotin : n ∉ es.map (fun e => e.employee_number) := by
      intro hmem
      obtain ⟨e, he, hEq⟩ := List.mem_map.mp hmem
      exact absurd (by simp [hEq]) (List.find?_eq_none.mp hnone e he)
    rw [List.nodup_append]
    exact ⟨hnd, List.nodup_singleton n, by
      intro a ha hb
      rw [List.mem_singleton] at hb
      exact hnotin (hb ▸ ha)⟩

theorem upsertEmployee_filter_length (es : List Employee) (n name : String) (abs : List String)
    (md : Metadata) (hnd : (es.map (fun e => e.employee_number)).Nodup) :
    ((upsertEmployee es n name abs md).filter (fun e => e.employee_number == n)).length = 1 := by
  induction es with
  | nil => simp [upsertEmployee]
  | cons e rest ih =>
    rw [List.map_cons, List.nodup_cons] at hnd
    unfold upsertEmployee
    by_cases hb : (e.employee_number == n) = true
    · rw [if_pos hb]
      have hn : e.employee_number = n := beq_iff_eq.mp hb
      have hfe : rest.filter (fun x => x.employee_number == n) = [] := by
        rw [List.filter_eq_nil_iff]
        intro x hx hbx
        exact hnd.1 (hn ▸ List.mem_map.mpr ⟨x, hx, beq_iff_eq.mp hbx⟩)
      simp [List.filter_cons, hb, hfe]
    · rw [if_neg hb]
      simp only [List.filter_cons, hb, if_false]
      exact ih hnd.2

/-- The `first_line_support_count` stored for `n` before an upsert: the
existing row's count, or the inserted default `0` when the row is new. -/
def storedCount (st : DBState) (n : String) : Nat :=
  match get_employee st n with
  | some e => e.first_line_support_count
  | none => 0

/-- C5: `create_employee` is an upsert keyed by `employee_number`: calling it
twice with the same number and different names, absences and metadata leaves
exactly one row for that number carrying the latest name, absences and
metadata, while the stored `first_line_support_count` is, after both calls,
exactly the count stored before the first call (the pre-existing row's count,
or `0` for a fresh row) — the upsert never changes it. -/
theorem create_employee_upsert_idempotent :
    ∀ st n name1 name2 a1 a2 m1 m2,
    (st.employees.map (fun e => e.employee_number)).Nodup →
    get_employee (create_employee st name1 n a1 m1).1 n =
      some ⟨n, name1, storedCount st n, a1, m1⟩ ∧
    get_employee (create_employee (create_employee st name1 n a1 m1).1 name2 n a2 m2).1 n =
      some ⟨n, name2, storedCount st n, a2, m2⟩ ∧
    ((create_employee (create_employee st name1 n a1 m1).1 name2 n a2 m2).1.employees.filter
      (fun e => e.employee_number == n)).length = 1 := by
  intro st n name1 name2 a1 a2 m1 m2 hnd
  have hone : ((upsertEmployee (upsertEmployee st.employees n name1 a1 m1) n name2 a2 m2).filter
      (fun e => e.employee_number == n)).length = 1 :=
    upsertEmployee_filter_length _ _ _ _ _ (upsertEmployee_numbers_nodup _ _ _ _ _ hnd)
  cases hf : st.employees.find? (fun e => e.employee_number == n) with
  | none =>
    have hsc : storedCount st n = 0 := by
      unfold storedCount get_employee
      rw [hf]
    rw [hsc]
    refine ⟨?_, ?_, hone⟩
    · unfold create_employee get_employee
      dsimp only
      rw [find?_upsertEmployee, hf]
    · unfold create_employee get_employee
      dsimp only
      rw [find?_upsertEmployee, find?_upsertEmployee, hf]
  | some e =>
    have hn : e.employee_number = n :=
      beq_iff_eq.mp (@List.find?_some _ (fun x => x.employee_number == n) e st.employees hf)
    have hsc : storedCount st n = e.first_line_support_count := by
      unfold storedCount get_employee
      rw [hf]
    rw [hsc]
    obtain ⟨en, enm, ec, ea, em⟩ := e
    dsimp only at hn
    subst hn
    refine ⟨?_, ?_, hone⟩
    · unfold create_employee get_employee
      dsimp only
      rw [find?_upsertEmployee, hf]
    · unfold create_employee get_employee
      dsimp only
      rw [find?_upsertEmployee, find?_upsertEmployee, hf]

/-- A store whose only employee already carries a nonzero duty-count. -/
def w5State : DBState := ⟨[⟨"EMP007", "Old Name", 5, ["2024-05-01"], []⟩], [], none⟩

/-- Witness for C5: two upserts of `EMP007` over a row whose stored count is
`5` leave one row with the latest fields and the count still `5`. -/
theorem create_employee_upsert_idempotent_witness :
    get_employee (create_employee w5State "First Name" "EMP007" ["2024-04-01"] []).1
      "EMP007" = some ⟨"EMP007", "First Name", 5, ["2024-04-01"], []⟩ ∧
    get_employee (create_employee
      (create_employee w5State "First Name" "EMP007" ["2024-04-01"] []).1
      "Second Name" "EMP007" [] []).1 "EMP007" = some ⟨"EMP007", "Second Name", 5, [], []⟩ ∧
    ((create_employee (create_employee w5State "First Name" "EMP007" ["2024-04-01"] []).1
      "Second Name" "EMP007" [] []).1.employees.filter
        (fun e => e.employee_number == "EMP007")).length = 1 :=
  create_employee_upsert_idempotent w5State "EMP007" "First Name" "Second Name"
    ["2024-04-01"] [] [] [] (by decide)

/-! ## C6: write-path failure propagation (refuted and corrected) -/

/-- Counterexample for C6: with the underlying `UPDATE` statement failing on
an existing employee, `update_employee` still returns a normal result — the
exception is caught and `False` comes back, exactly the not-found value —
instead of propagating the failure as the claim requires. -/
theorem update_employee_failure_counterexample :
    (update_employee_f true wState "EMP001" ⟨some "New Name", none, none, none⟩).isOk = true ∧
    update_employee_f true wState "EMP001" ⟨some "New Name", none, none, none⟩ =
      Except.ok (wState, false) := by
  constructor
  · rfl
  · rfl

/-- C6 as amended: of the write operations, `update_employee`,
`delete_employee`, `update_schedule`, `delete_schedule` and `update_rules`
catch an underlying store failure and return the normal result `False`
(indistinguishable from the not-found outcome) rather than propagating it;
only the create operations re-raise. -/
theorem write_failures_swallowed :
    (∀ st n u, update_employee_f true st n u = Except.ok (st, false)) ∧
    (∀ st n, ∃ st1, delete_employee_f true st n = Except.ok (st1, false)) ∧
    (∀ st d n, update_schedule_f true st d n = Except.ok (st, false)) ∧
    (∀ st d, delete_schedule_f true st d = Except.ok (st, false)) ∧
    (∀ st u, ∃ st1, update_rules_f true st u = Except.ok (st1, false)) := by
  refine ⟨?_, ?_, ?_, ?_, ?_⟩
  · intro st n u
    unfold update_employee_f
    cases hge : get_employee st n with
    | none => rfl
    | some e => rfl
  · intro st n
    unfold delete_employee_f
    cases hge : get_employee st n with
    | none => exact ⟨st, rfl⟩
    | some e =>
      dsimp only
      by_cases hemp :
          (((st.schedules.filter (fun s => s.first_line_support == n)).map
            (fun s => s.date)).isEmpty) = true
      · rw [if_pos hemp]
        exact ⟨st, rfl⟩
      · rw [if_neg hemp]
        exact ⟨_, rfl⟩
  · intro st d n
    unfold update_schedule_f
    cases hg : get_schedule st d with
    | none => rfl
    | some s => rfl
  · intro st d
    unfold delete_schedule_f
    cases hg : get_schedule st d with
    | none => rfl
    | some s => rfl
  · intro st u
    unfold update_rules_f
    exact ⟨_, rfl⟩

/-! ## C7: connection retry with exponential backoff -/

/-- An outcome schedule whose first attempt fails and whose every later
attempt succeeds. -/
def failThenOk : Nat → Bool := fun k => k != 0

/-- Counterexample for C7: `connect()` raises on the very first transient
failure even though the next attempt would succeed well within the budget —
the retry loop lives in `init`, not in `connect`. -/
theorem connect_single_failure_counterexample :
    connect_m failThenOk = Except.error DBErr.connFailed ∧ failThenOk 1 = true := by
  constructor
  · rfl
  · rfl

theorem backoffDelay_shift (d M : Rat) :
    ∀ k, backoffDelay d M (k + 1) = backoffDelay (min M (d * (3 / 2))) M k := by
  intro k
  induction k with
  | zero => rfl
  | succ k ih =>
    show min M (backoffDelay d M (k + 1) * (3 / 2)) = _
    rw [ih]
    rfl

theorem initLoop_allFail (out : Nat → Bool) (M : Rat) :
    ∀ (fuel maxR a : Nat) (δ : Rat), maxR - a = fuel + 1 → a < maxR →
    (∀ k, a ≤ k → k < maxR → out k = false) →
    initLoop out maxR a δ M =
      (some DBErr.connFailed, (List.range fuel).map (backoffDelay δ M)) := by
  intro fuel
  induction fuel with
  | zero =>
    intro maxR a δ hfuel ha hall
    rw [initLoop]
    rw [if_pos ha, if_neg (by simp [hall a le_rfl ha]), if_neg (by omega)]
    simp
  | succ fuel ih =>
    intro maxR a δ hfuel ha hall
    rw [initLoop]
    rw [if_pos ha, if_neg (by simp [hall a le_rfl ha]), if_pos (by omega)]
    rw [ih maxR (a + 1) (min M (δ * (3 / 2))) (by omega) (by omega)
      (fun k hk1 hk2 => hall k (by omega) hk2)]
    rw [List.range_succ_eq_map, List.map_cons, List.map_map]
    have hfun : (backoffDelay δ M ∘ Nat.succ) = backoffDelay (min M (δ * (3 / 2))) M := by
      funext k
      exact backoffDelay_shift δ M k
    rw [hfun]
    rfl

theorem initLoop_none_of_success (out : Nat → Bool) (M : Rat) :
    ∀ (fuel maxR a : Nat) (δ : Rat), maxR - a ≤ fuel →
    (∃ k, a ≤ k ∧ k < maxR ∧ out k = true) →
    (initLoop out maxR a δ M).1 = none := by
  intro fuel
  induction fuel with
  | zero =>
    intro maxR a δ hfuel hex
    obtain ⟨k, hk1, hk2, _⟩ := hex
    omega
  | succ fuel ih =>
    intro maxR a δ hfuel hex
    obtain ⟨k, hk1, hk2, hkt⟩ := hex
    rw [initLoop]
    by_cases ha : a < maxR
    · rw [if_pos ha]
      by_cases hout : out a = true
      · rw [if_pos hout]
      · rw [if_neg hout]
        have hka : a + 1 ≤ k := by
          rcases Nat.eq_or_lt_of_le hk1 with h | h
          · exact absurd (h ▸ hkt) hout
          · omega
        rw [if_pos (by omega)]
        exact ih maxR (a + 1) (min M (δ * (3 / 2))) (by omega) ⟨k, hka, hk2, hkt⟩
    · rw [if_neg ha]

/-- C7 as amended: `connect()` itself makes a single attempt and re-raises on
failure; the retry-with-backoff policy is implemented by the loop in `init`:
the first retry sleeps `initial_delay`, each later delay is the previous one
times `1.5` capped at `max_delay`, a connectivity error is raised only after
`max_retries` failed attempts, and a single transient failure followed by a
success within the budget does not raise. -/
theorem init_retry_backoff :
    (∀ out maxR d M, 2 ≤ maxR → out 0 = false → out 1 = true →
      init_m out maxR d M = (none, [d])) ∧
    (∀ out maxR d M, 1 ≤ maxR →
      ((init_m out maxR d M).1 = some DBErr.connFailed ↔ ∀ k, k < maxR → out k = false)) ∧
    (∀ out maxR d M, 1 ≤ maxR → (∀ k, k < maxR → out k = false) →
      init_m out maxR d M =
        (some DBErr.connFailed, (List.range (maxR - 1)).map (backoffDelay d M))) := by
  refine ⟨?_, ?_, ?_⟩
  · intro out maxR d M h2 h0 h1
    unfold init_m
    rw [initLoop]
    rw [if_pos (by omega), if_neg (by simp [h0]), if_pos (by omega)]
    rw [initLoop]
    rw [if_pos (by omega), if_pos h1]
  · intro out maxR d M h1
    constructor
    · intro hsome
      by_contra hnot
      push_neg at hnot
      obtain ⟨k, hk, hkt⟩ := hnot
      have hnone : (init_m out maxR d M).1 = none := by
        apply initLoop_none_of_success out M maxR maxR 0 d (by omega)
        refine ⟨k, Nat.zero_le k, hk, ?_⟩
        cases hout : out k with
        | false => exact absurd hout hkt
        | true => rfl
      rw [hnone] at hsome
      cases hsome
    · intro hall
      unfold init_m
      rw [initLoop_allFail out M (maxR - 1) maxR 0 d (by omega) (by omega)
        (fun k _ hk => hall k hk)]
  · intro out maxR d M h1 hall
    unfold init_m
    exact initLoop_allFail out M (maxR - 1) maxR 0 d (by omega) (by omega)
      (fun k _ hk => hall k hk)

/-- Witness for C7's amended statement: with the default initial delay `1` and
cap `10`, a first failure followed by a success retries after sleeping `1`
second and does not raise, and three straight failures with budget `3` raise
after sleeping `1` and `3/2` seconds. -/
theorem init_retry_backoff_witness :
    init_m failThenOk 30 1 10 = (none, [1]) ∧
    init_m (fun _ => false) 3 1 10 = (some DBErr.connFailed, [1, 3 / 2]) := by
  constructor
  · exact init_retry_backoff.1 failThenOk 30 1 10 (by omega) rfl rfl
  · rw [init_retry_backoff.2.2 (fun _ => false) 3 1 10 (by omega) (fun k _ => rfl)]
    norm_num [backoffDelay, List.range_succ, min_def]

/-! ## C8: delete_employee is not atomic across its two statements -/

/-- A store with one employee referenced by one schedule row. -/
def cState : DBState := ⟨[wEmp1], [⟨"2024-03-02", "EMP001"⟩], some defaultRules⟩

/-- Counterexample for C8: the connection runs with `autocommit=True`, so the
schedule-cascade `DELETE` commits on its own; when the employee-row `DELETE`
then fails, the resulting store is NOT the pre-call state — the schedule rows
are gone while the employee remains. -/
theorem delete_employee_not_atomic_counterexample :
    delete_employee_f true cState "EMP001" =
      Except.ok ({ cState with schedules := [] }, false) ∧
    ({ cState with schedules := [] } : DBState) ≠ cState := by
  constructor
  · rfl
  · intro h
    have hs := congrArg DBState.schedules h
    simp [cState] at hs

/-- C8 as amended: each statement of `delete_employee` auto-commits; a failure
of the employee-row deletion after the cascade leaves the referencing schedule
rows deleted (a partial cascade is observable) and returns `False`. -/
theorem delete_employee_partial_cascade :
    ∀ st n, get_employee st n ≠ none →
      delete_employee_f true st n = Except.ok
        ({ st with schedules := st.schedules.filter (fun s => s.first_line_support != n) },
         false) := by
  intro st n hsome
  cases hge : get_employee st n with
  | none => exact absurd hge hsome
  | some e =>
    unfold delete_employee_f
    rw [hge]
    dsimp only
    by_cases hemp :
        (((st.schedules.filter (fun s => s.first_line_support == n)).map
          (fun s => s.date)).isEmpty) = true
    · rw [if_pos hemp]
      have hnil : st.schedules.filter (fun s => s.first_line_support == n) = [] :=
        List.map_eq_nil_iff.mp (List.isEmpty_iff.mp hemp)
      rw [schedules_filter_ne_of_no_ref st n hnil, if_pos rfl]
    · rw [if_neg hemp, if_pos rfl]

/-- Witness for C8's amended statement: the failed delete of `EMP001` from
`wState` commits the cascade and returns `False`. -/
theorem delete_employee_partial_cascade_witness :
    delete_employee_f true wState "EMP001" = Except.ok
      ({ wState with
          schedules := wState.schedules.filter (fun s => s.first_line_support != "EMP001") },
       false) :=
  delete_employee_partial_cascade wState "EMP001" (by decide)

/-! ## C9: range query over schedules -/

/-- C9: `get_schedules` returns exactly the schedule rows inside the optional
bounds — `date >= startDate` when a start is given and `date <= endDate` when
an end is given, both inclusive, an omitted bound unbounded — ordered
ascending by date. -/
theorem get_schedules_range_query :
    ∀ st s e,
    List.Perm (get_schedules st s e) (st.schedules.filter (boundOk s e)) ∧
    List.Sorted dateLE (get_schedules st s e) ∧
    (∀ r, r ∈ get_schedules st s e ↔ r ∈ st.schedules ∧
      (∀ a, s = some a → a ≤ r.date) ∧ (∀ b, e = some b → r.date ≤ b)) := by
  intro st s e
  refine ⟨List.perm_insertionSort dateLE _, List.sorted_insertionSort dateLE _, ?_⟩
  intro r
  unfold get_schedules
  rw [List.Perm.mem_iff (List.perm_insertionSort dateLE _), List.mem_filter]
  cases s with
  | none =>
    cases e with
    | none => simp [boundOk]
    | some b => simp [boundOk]
  | some a =>
    cases e with
    | none => simp [boundOk]
    | some b => simp [boundOk, and_assoc]

/-! ## C10: update_employee writes the supplied duty-count -/

theorem find?_map_update (es : List Employee) (n : String) (f : Employee → Employee)
    (hf : ∀ x, (f x).employee_number = x.employee_number) :
    (es.map (fun x => if x.employee_number == n then f x else x)).find?
      (fun x => x.employee_number == n) =
    (es.find? (fun x => x.employee_number == n)).map f := by
  induction es with
  | nil => rfl
  | cons e rest ih =>
    by_cases hb : (e.employee_number == n) = true
    · rw [List.map_cons, if_pos hb]
      simp [List.find?, hf, hb]
    · rw [List.map_cons, if_neg hb]
      have h1 : List.find? (fun x => x.employee_number == n)
          (e :: rest.map (fun x => if x.employee_number == n then f x else x)) =
          List.find? (fun x => x.employee_number == n)
            (rest.map (fun x => if x.employee_number == n then f x else x)) := by
        simp [List.find?, hb]
      have h2 : List.find? (fun x => x.employee_number == n) (e :: rest) =
          List.find? (fun x => x.employee_number == n) rest := by
        simp [List.find?, hb]
      rw [h1, h2, ih]

/-- C10: for an existing employee, `update_employee` writes back every field
of the merged record, `first_line_support_count` included: supplying that key
sets the stored derived count to the supplied value (the derived field is not
protected), and `update_employee` touches no schedule row, so no
reconciliation runs until the next schedule mutation. -/
theorem update_employee_overwrites_count :
    ∀ st n u e c,
    get_employee st n = some e →
    u.first_line_support_count = some c →
    update_employee_f false st n u =
      Except.ok (updatedEmployees st n (mergeEmployee e u), true) ∧
    get_employee (updatedEmployees st n (mergeEmployee e u)) n = some (mergeEmployee e u) ∧
    (mergeEmployee e u).first_line_support_count = c ∧
    (updatedEmployees st n (mergeEmployee e u)).schedules = st.schedules := by
  intro st n u e c hge hc
  refine ⟨?_, ?_, ?_, rfl⟩
  · unfold update_employee_f
    rw [hge]
    rfl
  · unfold updatedEmployees get_employee
    dsimp only
    rw [find?_map_update st.employees n (fun x =>
      { x with
        name := (mergeEmployee e u).name
        first_line_support_count := (mergeEmployee e u).first_line_support_count
        known_absences := (mergeEmployee e u).known_absences
        metadata := (mergeEmployee e u).metadata }) (fun x => rfl)]
    have hge' : st.employees.find? (fun x => x.employee_number == n) = some e := hge
    rw [hge']
    rfl
  · simp [mergeEmployee, hc]

/-- Witness for C10: setting `first_line_support_count` to `42` on `EMP001`
stores `42` and leaves the schedules untouched. -/
theorem update_employee_overwrites_count_witness :
    update_employee_f false wState "EMP001" ⟨none, some 42, none, none⟩ =
      Except.ok (updatedEmployees wState "EMP001"
        (mergeEmployee wEmp1 ⟨none, some 42, none, none⟩), true) ∧
    get_employee (updatedEmployees wState "EMP001"
        (mergeEmployee wEmp1 ⟨none, some 42, none, none⟩)) "EMP001" =
      some (mergeEmployee wEmp1 ⟨none, some 42, none, none⟩) ∧
    (mergeEmployee wEmp1 ⟨none, some 42, none, none⟩).first_line_support_count = 42 ∧
    (updatedEmployees wState "EMP001"
        (mergeEmployee wEmp1 ⟨none, some 42, none, none⟩)).schedules = wState.schedules :=
  update_employee_overwrites_count wState "EMP001" ⟨none, some 42, none, none⟩ wEmp1 42
    (by decide) rfl

end Scheduling
